import Mathlib

/-!
Shallow embedding of the vscode-shell-syntax extension (src/extension.ts,
src/package.json) and proofs of the specification claims about it.

The embedding translates the TypeScript source into executable Lean
definitions:
* JavaScript regular expressions are translated into structurally recursive
  matchers over `List Char` with the same greedy/backtracking semantics on
  the concrete patterns used by the source;
* the VSCode `TextDocument` is modelled by its fields read by the source
  (uri, uri scheme, fileName, languageId, isDirty, line contents);
* the `DiagnosticCollection` is modelled as an association list keyed by
  uri with `set` / `delete` / lookup operations;
* `execFile`'s callback outcome is modelled by an optional error value
  carrying the `errno` / `code` fields inspected by the source.
-/

namespace ShellSyntax

/-- JavaScript word character class `\w` = `[A-Za-z0-9_]`, used by the
`\b` word-boundary assertions in the shebang regexes. -/
def isWordChar (c : Char) : Bool := c.isAlphanum || c == '_'

/-- JavaScript `.` (no `s` flag): any character except line terminators.
Lines fed to the matchers contain no `'\n'`; `'\r'` is also excluded. -/
def jsDot (c : Char) : Bool := !(c == '\n') && !(c == '\r')

/-- Strip a literal character sequence from the front of a list,
returning the remainder on success. -/
def stripPre : List Char → List Char → Option (List Char)
  | [], s => some s
  | _ :: _, [] => none
  | a :: p, b :: s => if a = b then stripPre p s else none

/-- Split a string at every `'\n'`, JavaScript `text.split("\n")`:
the empty string yields `[""]`, a trailing newline yields a trailing `""`. -/
def splitNlAux : List Char → List Char → List String
  | acc, [] => [String.mk acc.reverse]
  | acc, c :: rest =>
    if c = '\n' then String.mk acc.reverse :: splitNlAux [] rest
    else splitNlAux (c :: acc) rest

/-- Embedding of `text.split("\n")` from `getMatches`. -/
def splitNl (text : String) : List String := splitNlAux [] text.toList

/-- Parse the tail of an error line after the greedy `(.+)` group:
a literal separator `mid`, then `(\d+)` (maximal digit run), then
the literal `": "`, then the nonempty message group `(.+)$`.
Returns (digit group, message group). -/
def parseTail (mid : List Char) (rest : List Char) : Option (String × String) :=
  match stripPre mid rest with
  | none => none
  | some r1 =>
    let ds := r1.takeWhile Char.isDigit
    let r2 := r1.dropWhile Char.isDigit
    if ds.isEmpty then none
    else
      match stripPre [':', ' '] r2 with
      | none => none
      | some msg => if msg.isEmpty then none else some (String.mk ds, String.mk msg)

/-- Greedy search for the split point of the leading `(.+)` group:
split points are tried longest-first, exactly as a backtracking regex
engine consumes `(.+)` greedily.  `greedyFrom mid s k` tries the splits
`k, k-1, …, 1` (the group-1 text is `s.take i`, nonempty). -/
def greedyFrom (mid : List Char) (s : List Char) : Nat → Option (String × String × String)
  | 0 => none
  | i + 1 =>
    match parseTail mid (s.drop (i + 1)) with
    | some (ds, msg) => some (String.mk (s.take (i + 1)), ds, msg)
    | none => greedyFrom mid s i

/-- Match a full error line against `^(.+)<mid>(\d+): (.+)$` with
JavaScript semantics (greedy groups; `.` matches neither `'\n'` nor
`'\r'`, hence every character of a matched line satisfies `jsDot`). -/
def matchThree (mid : List Char) (line : String) : Option (String × String × String) :=
  let s := line.toList
  if s.all jsDot then greedyFrom mid s (s.length - 1) else none

/-- Embedding of the bash error regex `^(.+): line (\d+): (.+)$`. -/
def bashMatchLine (line : String) : Option (String × String × String) :=
  matchThree (": line ".toList) line

/-- Embedding of the zsh error regex `^(.+):(\d+): (.+)$`. -/
def zshMatchLine (line : String) : Option (String × String × String) :=
  matchThree [':'] line

/-- Embedding of the sh error regex `^(.+): (\d+): (.+)$`. -/
def shMatchLine (line : String) : Option (String × String × String) :=
  matchThree [':', ' '] line

/-- Embedding of `Number.parseInt` applied to the `(\d+)` capture
(always a nonempty digit string). -/
def parseDigits (s : String) : Nat :=
  s.toList.foldl (fun n c => n * 10 + (c.toNat - 48)) 0

/-- Embedding of `getMatches`: split the text on newline and collect,
in order, the match result of every line that matches. -/
def getMatches {α : Type} (m : String → Option α) (text : String) : List α :=
  (splitNl text).foldl
    (fun out line =>
      match m line with
      | some r => out ++ [r]
      | none => out)
    []

/-- Word-boundary test used by `\b(zsh)` / `\b(sh)\b`: whether the
character following the literal is a word character (false at end). -/
def wordAfter (b : List Char) : Bool := (b.head?.map isWordChar).getD false

/-- Occurrence test for the literal `(zsh)` at the current position. -/
def zshAt (s : List Char) : Bool := (stripPre ['z', 's', 'h'] s).isSome

/-- Scan for `\b(zsh)` in the part of the first line after `#!`:
`prev` is the character before the current position.  A position is a
match when the preceding character is not a word character (the `\b`)
and the literal `zsh` starts here; otherwise scanning advances, the
skipped character being consumed by `.*` (so it must satisfy `jsDot`). -/
def zshSearch : Char → List Char → Bool
  | _, [] => false
  | prev, c :: rest =>
    (!isWordChar prev && zshAt (c :: rest)) || (jsDot c && zshSearch c rest)

/-- Occurrence test for `(sh)\b` at the current position: the literal
`sh` followed by a non-word character or the end of the line. -/
def shAt (s : List Char) : Bool :=
  match stripPre ['s', 'h'] s with
  | some rest => !wordAfter rest
  | none => false

/-- Scan for `\b(sh)\b` in the part of the first line after `#!`. -/
def shSearch : Char → List Char → Bool
  | _, [] => false
  | prev, c :: rest =>
    (!isWordChar prev && shAt (c :: rest)) || (jsDot c && shSearch c rest)

/-- Embedding of `firstLine.match(/^#!.*\b(zsh).*/)` as a Boolean test:
the line must start with the literal `#!`, after which `.*\b(zsh)` is
searched; the trailing `.*` is vacuous (it can match the empty string
and nothing is anchored after it). -/
def zshShebangMatch (line : String) : Bool :=
  match stripPre ['#', '!'] line.toList with
  | some rest => zshSearch '!' rest
  | none => false

/-- Embedding of `firstLine.match(/^#!.*\b(sh)\b.*/)` as a Boolean test. -/
def shShebangMatch (line : String) : Bool :=
  match stripPre ['#', '!'] line.toList with
  | some rest => shSearch '!' rest
  | none => false

/-- The fields of a VSCode `TextDocument` read by the source: identity
(uri), uri scheme, filesystem path, declared language, dirty flag, and
the line contents (each line without its terminator). -/
structure TextDocument where
  uri : String
  scheme : String
  fileName : String
  languageId : String
  isDirty : Bool
  lines : List String
deriving DecidableEq

/-- Embedding of `document.lineAt(0)` / `document.getText(range of line 0)`. -/
def firstLine (d : TextDocument) : String := d.lines.headD ""

/-- Embedding of `vscode.languages.match({language: "shellscript",
scheme: "file"}, document)`: a positive score exactly when both the
language identifier and the uri scheme match the selector. -/
def languagesMatch (d : TextDocument) : Nat :=
  if d.languageId == "shellscript" && d.scheme == "file" then 10 else 0

/-- Embedding of `isSavedShellDocument`. -/
def isSavedShellDocument (d : TextDocument) : Bool :=
  !d.isDirty && decide (0 < languagesMatch d)

/-- Embedding of `document.fileName.endsWith(ext)`. -/
def strEndsWith (s suff : String) : Bool :=
  (stripPre suff.toList.reverse s.toList.reverse).isSome

/-- The zsh extension list of `isSavedZshDocument`. -/
def zshExtensions : List String :=
  [".zsh", ".zshrc", ".zprofile", ".zlogin", ".zlogout", ".zshenv", ".zsh-theme"]

/-- Embedding of `isSavedZshDocument`: saved shell document whose path
ends in a zsh extension, or (otherwise) whose first line matches the
zsh shebang regex. -/
def isSavedZshDocument (d : TextDocument) : Bool :=
  isSavedShellDocument d &&
    (zshExtensions.any (fun ext => strEndsWith d.fileName ext) ||
      zshShebangMatch (firstLine d))

/-- Embedding of `isSavedShebangShDocument`. -/
def isSavedShebangShDocument (d : TextDocument) : Bool :=
  isSavedShellDocument d && shShebangMatch (firstLine d)

/-- The three shell dialects. -/
inductive Shell
  | bash
  | zsh
  | sh
deriving DecidableEq

/-- Name of the checker binary for a dialect. -/
def shellName : Shell → String
  | Shell.bash => "bash"
  | Shell.zsh => "zsh"
  | Shell.sh => "sh"

/-- The dialect dispatch of `lint`: the `if / else if / else if` chain
over the three predicates, in source order; `none` when no predicate
holds (no check is performed). -/
def lintShell (d : TextDocument) : Option Shell :=
  if isSavedZshDocument d then some Shell.zsh
  else if isSavedShebangShDocument d then some Shell.sh
  else if isSavedShellDocument d then some Shell.bash
  else none

/-- The argv `lint` passes to `runInWorkspace` (`<dialect> -n <path>`),
`none` when no check is performed. -/
def lintCommand (d : TextDocument) : Option (List String) :=
  (lintShell d).map (fun s => [shellName s, "-n", d.fileName])

/-- A VSCode `Diagnostic` as the source constructs it: a range (already
validated against the document), a message and a source label. -/
structure Diagnostic where
  startLine : Nat
  startChar : Nat
  endLine : Nat
  endChar : Nat
  message : String
  source : String
deriving DecidableEq

/-- Line clamping of `document.validateRange`: a requested line index
(`Int`, since `lineNumber - 1` can be `-1` when the tool reports line
`0`) is clamped into `[0, lineCount - 1]`. -/
def validateLine (doc : TextDocument) (l : Int) : Nat :=
  (min (max l 0) ((doc.lines.length : Int) - 1)).toNat

/-- Length of a document line (empty when out of range), the value the
end character `Number.MAX_VALUE` is clamped to by `validateRange`. -/
def lineLen (doc : TextDocument) (i : Nat) : Nat := (doc.lines.getD i "").length

/-- Embedding of the diagnostic construction shared by the three
output parsers: `document.validateRange(new Range(lineNumber - 1, 0,
lineNumber - 1, Number.MAX_VALUE))`, message from group 3, source label
set to the dialect name. -/
def mkDiagnostic (doc : TextDocument) (src : String) (n : Nat) (msg : String) :
    Diagnostic :=
  let cl := validateLine doc ((n : Int) - 1)
  { startLine := cl, startChar := 0, endLine := cl, endChar := lineLen doc cl,
    message := msg, source := src }

/-- Embedding of `bashOutputToDiagnostics`. -/
def bashOutputToDiagnostics (doc : TextDocument) (output : String) : List Diagnostic :=
  (getMatches bashMatchLine output).map
    (fun m => mkDiagnostic doc "bash" (parseDigits m.2.1) m.2.2)

/-- Embedding of `zshOutputToDiagnostics`. -/
def zshOutputToDiagnostics (doc : TextDocument) (output : String) : List Diagnostic :=
  (getMatches zshMatchLine output).map
    (fun m => mkDiagnostic doc "zsh" (parseDigits m.2.1) m.2.2)

/-- Embedding of `shOutputToDiagnostics`. -/
def shOutputToDiagnostics (doc : TextDocument) (output : String) : List Diagnostic :=
  (getMatches shMatchLine output).map
    (fun m => mkDiagnostic doc "sh" (parseDigits m.2.1) m.2.2)

/-- The per-dialect output parser chosen by the branch of `lint`. -/
def outputToDiagnostics : Shell → TextDocument → String → List Diagnostic
  | Shell.bash, d, err => bashOutputToDiagnostics d err
  | Shell.zsh, d, err => zshOutputToDiagnostics d err
  | Shell.sh, d, err => shOutputToDiagnostics d err

/-- The fields of the `execFile` callback error inspected by the source:
`errno` (a string on system errors, per the source's `ISystemError`) and
`code` (the exit code on process errors). -/
structure ExecError where
  errno : Option String
  code : Option Int
deriving DecidableEq

/-- Embedding of `isSystemError`. -/
def isSystemError (e : ExecError) : Bool := e.errno.isSome

/-- Embedding of `isProcessError`. -/
def isProcessError (e : ExecError) : Bool :=
  !isSystemError e && e.code.isSome && decide (0 < e.code.getD 0)

/-- Embedding of `IProcessResult`. -/
structure IProcessResult where
  exitCode : Int
  stdout : String
  stderr : String
deriving DecidableEq

/-- Embedding of the promise produced by `runInWorkspace`, as a function
of the `execFile` callback's arguments (`error`, `stdout`, `stderr`):
`if (error && !isProcessError(error)) reject(error) else
resolve({stdout, stderr, exitCode: error ? error.code : 0})`. -/
def runInWorkspace (execErr : Option ExecError) (stdout stderr : String) :
    Except ExecError IProcessResult :=
  match execErr with
  | some e =>
    if isProcessError e then Except.ok ⟨e.code.getD 0, stdout, stderr⟩
    else Except.error e
  | none => Except.ok ⟨0, stdout, stderr⟩

/-- The `DiagnosticCollection`, keyed by document uri. -/
abbrev DiagnosticCollection : Type := List (String × List Diagnostic)

/-- Embedding of `diagnostics.delete(uri)`. -/
def dcDelete (c : DiagnosticCollection) (uri : String) : DiagnosticCollection :=
  List.filter (fun p => !(p.1 == uri)) c

/-- Embedding of `diagnostics.set(uri, ds)`: replaces the entry. -/
def dcSet (c : DiagnosticCollection) (uri : String) (ds : List Diagnostic) :
    DiagnosticCollection :=
  (uri, ds) :: dcDelete c uri

/-- The entry the collection holds for a uri. -/
def dcGet (c : DiagnosticCollection) (uri : String) : Option (List Diagnostic) :=
  (List.find? (fun p => p.1 == uri) c).map (fun p => p.2)

/-- Embedding of one completed run of `lint document` applied to the
diagnostic collection; `execErr`, `stdout`, `stderr` model the outcome
of the `execFile` call performed in the taken branch.  When no branch is
taken the collection is untouched; when `runInWorkspace` rejects, the
`await` in `lint` throws, `diagnostics.set` is never reached, and the
rejection is swallowed by the fire-and-forget event registration, so the
collection is again untouched. -/
def lintStep (d : TextDocument) (execErr : Option ExecError)
    (stdout stderr : String) (c : DiagnosticCollection) : DiagnosticCollection :=
  match lintShell d with
  | none => c
  | some dialect =>
    match runInWorkspace execErr stdout stderr with
    | Except.error _ => c
    | Except.ok res => dcSet c d.uri (outputToDiagnostics dialect d res.stderr)

/-- Embedding of the `onDidCloseTextDocument` handler:
`diagnostics.delete(d.uri)`. -/
def onCloseDoc (d : TextDocument) (c : DiagnosticCollection) : DiagnosticCollection :=
  dcDelete c d.uri

/-! ### Concrete documents used by the witnesses and evaluations -/

/-- The apostrophe character as a string (U+0027). -/
def aposStr : String := String.mk [Char.ofNat 39]

/-- A saved, plain `.sh` shell buffer: no zsh extension, no shebang. -/
def plainShDoc : TextDocument :=
  { uri := "file:///home/u/plain.sh", scheme := "file", fileName := "/home/u/plain.sh",
    languageId := "shellscript", isDirty := false, lines := ["echo hi"] }

/-- A saved shell buffer with five lines, used for the bash normalizer. -/
def bashSampleDoc : TextDocument :=
  { uri := "file:///home/u/script.sh", scheme := "file", fileName := "/home/u/script.sh",
    languageId := "shellscript", isDirty := false,
    lines := ["if true", "then", "echo hi", "fi extra", "done"] }

/-- A saved shell buffer whose first line is the `#!/bin/sh` shebang. -/
def shSampleDoc : TextDocument :=
  { uri := "file:///home/u/sample.sh", scheme := "file", fileName := "/home/u/sample.sh",
    languageId := "shellscript", isDirty := false,
    lines := ["#!/bin/sh", "if true", "then", "echo hi", "fi now"] }

/-- A saved shell buffer with a zsh shebang. -/
def zshSampleDoc : TextDocument :=
  { uri := "file:///home/u/sample.zsh", scheme := "file", fileName := "/home/u/sample.zsh",
    languageId := "shellscript", isDirty := false,
    lines := ["#!/bin/zsh", "if true", "then", "echo hi", "fi now"] }

/-- A saved shell buffer whose path ends in `.zshrc` and whose first
line is a bash shebang. -/
def zshrcDoc : TextDocument :=
  { uri := "file:///home/u/.zshrc", scheme := "file", fileName := "/home/u/.zshrc",
    languageId := "shellscript", isDirty := false, lines := ["#!/bin/bash", "echo hi"] }

/-- A dirty shell buffer with an sh shebang. -/
def dirtyDoc : TextDocument :=
  { uri := "file:///home/u/dirty.sh", scheme := "file", fileName := "/home/u/dirty.sh",
    languageId := "shellscript", isDirty := true, lines := ["#!/bin/sh", "echo hi"] }

/-- An unsaved (non-file-scheme) buffer in shell language. -/
def untitledDoc : TextDocument :=
  { uri := "untitled:Untitled-1", scheme := "untitled", fileName := "Untitled-1",
    languageId := "shellscript", isDirty := false, lines := ["#!/bin/sh", "echo hi"] }

/-- A saved shell buffer whose first line is `#!/bin/dash`. -/
def dashDoc : TextDocument :=
  { uri := "file:///home/u/dash-script", scheme := "file", fileName := "/home/u/dash-script",
    languageId := "shellscript", isDirty := false, lines := ["#!/bin/dash", "echo hi"] }

/-- Whether the character at index `i` of `l` is a word character
(out-of-range positions count as non-word, like the ends of a line for
`\b`).  Used to state the word-boundary claim. -/
def wordAt (l : List Char) (i : Nat) : Bool := isWordChar (l.getD i ' ')

/-! ### Helper lemmas -/

/-- Deleting a uri from the collection leaves no entry for it. -/
theorem dcGet_dcDelete (c : DiagnosticCollection) (uri : String) :
    dcGet (dcDelete c uri) uri = none := by
  induction c with
  | nil => rfl
  | cons p c ih =>
    by_cases hp : p.1 == uri
    · simp [dcDelete, dcGet, List.filter, hp] at ih ⊢
    · simp only [dcDelete, List.filter] at ih ⊢
      simp only [hp]
      simp [dcGet, List.find?, hp] at ih ⊢

/-- The accumulator form of the `getMatches` loop. -/
theorem getMatches_foldl {α : Type} (m : String → Option α) :
    ∀ (ls : List String) (acc : List α),
      (ls.foldl
        (fun out line =>
          match m line with
          | some r => out ++ [r]
          | none => out) acc)
        = acc ++ ls.filterMap m := by
  intro ls
  induction ls with
  | nil => intro acc; simp
  | cons x ls ih =>
    intro acc
    cases hm : m x <;> simp [List.foldl_cons, hm, ih, List.filterMap_cons]

/-- The `getMatches` loop produces, in input order, the match of every
line that matches and nothing for lines that do not. -/
theorem getMatches_eq_filterMap {α : Type} (m : String → Option α) (text : String) :
    getMatches m text = (splitNl text).filterMap m := by
  unfold getMatches
  simpa using getMatches_foldl m (splitNl text) []

/-- Stripping a literal succeeds exactly on lists extending it. -/
theorem stripPre_eq_some : ∀ (p s t : List Char), stripPre p s = some t → s = p ++ t := by
  intro p
  induction p with
  | nil =>
    intro s t h
    simp only [stripPre, Option.some.injEq] at h
    simp [h]
  | cons a p ih =>
    intro s t h
    cases s with
    | nil => simp [stripPre] at h
    | cons b s =>
      simp only [stripPre] at h
      by_cases hab : a = b
      · rw [if_pos hab] at h
        subst hab
        rw [List.cons_append, ih s t h]
      · rw [if_neg hab] at h
        exact absurd h (by simp)

/-- Soundness of the `(sh)\b` occurrence test. -/
theorem shAt_sound (s : List Char) (h : shAt s = true) :
    ∃ b, s = 's' :: 'h' :: b ∧ wordAfter b = false := by
  unfold shAt at h
  cases hst : stripPre ['s', 'h'] s with
  | none => rw [hst] at h; simp at h
  | some rest =>
    rw [hst] at h
    simp only [Bool.not_eq_true'] at h
    exact ⟨rest, by simpa using stripPre_eq_some _ _ _ hst, h⟩

/-- Soundness of the `(zsh)` occurrence test. -/
theorem zshAt_sound (s : List Char) (h : zshAt s = true) :
    ∃ b, s = 'z' :: 's' :: 'h' :: b := by
  unfold zshAt at h
  cases hst : stripPre ['z', 's', 'h'] s with
  | none => rw [hst] at h; simp at h
  | some rest => exact ⟨rest, by simpa using stripPre_eq_some _ _ _ hst⟩

/-- `getLastD` of a cons in terms of the tail. -/
theorem getLastDCons (x : Char) (a : List Char) (p : Char) :
    (x :: a).getLastD p = a.getLastD x := by
  cases a <;> simp [List.getLastD]

/-- Soundness of the `\b(sh)\b` scanner: a successful scan exhibits an
occurrence of `sh` whose preceding character (`prev` when the
occurrence is at the start) is not a word character and whose following
character, if any, is not a word character either. -/
theorem shSearch_sound : ∀ (l : List Char) (prev : Char), shSearch prev l = true →
    ∃ a b, l = a ++ 's' :: 'h' :: b ∧ isWordChar (a.getLastD prev) = false ∧
      wordAfter b = false := by
  intro l
  induction l with
  | nil => intro prev h; simp [shSearch] at h
  | cons c rest ih =>
    intro prev h
    rw [shSearch] at h
    simp only [Bool.or_eq_true, Bool.and_eq_true, Bool.not_eq_true'] at h
    rcases h with ⟨hw, hat⟩ | ⟨hdot, hrec⟩
    · obtain ⟨b, hb, haft⟩ := shAt_sound _ hat
      exact ⟨[], b, by simpa using hb, by simpa [List.getLastD] using hw, haft⟩
    · obtain ⟨a, b, heq, hlast, haft⟩ := ih c hrec
      exact ⟨c :: a, b, by rw [heq]; rfl,
        by rw [getLastDCons]; exact hlast, haft⟩

/-- Soundness of the `\b(zsh)` scanner. -/
theorem zshSearch_sound : ∀ (l : List Char) (prev : Char), zshSearch prev l = true →
    ∃ a b, l = a ++ 'z' :: 's' :: 'h' :: b ∧
      isWordChar (a.getLastD prev) = false := by
  intro l
  induction l with
  | nil => intro prev h; simp [zshSearch] at h
  | cons c rest ih =>
    intro prev h
    rw [zshSearch] at h
    simp only [Bool.or_eq_true, Bool.and_eq_true, Bool.not_eq_true'] at h
    rcases h with ⟨hw, hat⟩ | ⟨hdot, hrec⟩
    · obtain ⟨b, hb⟩ := zshAt_sound _ hat
      exact ⟨[], b, by simpa using hb, by simpa [List.getLastD] using hw⟩
    · obtain ⟨a, b, heq, hlast⟩ := ih c hrec
      exact ⟨c :: a, b, by rw [heq]; rfl,
        by rw [getLastDCons]; exact hlast⟩

/-- Dropping the length of the left part of an append. -/
theorem dropAppLen : ∀ (a r : List Char), (a ++ r).drop a.length = r := by
  intro a r
  induction a with
  | nil => rfl
  | cons x a ih => simp only [List.cons_append, List.length_cons, List.drop_succ_cons]; exact ih

/-- `getD` at the length of the left part of an append. -/
theorem getDAppLen : ∀ (a r : List Char) (dflt : Char),
    (a ++ r).getD a.length dflt = r.headD dflt := by
  intro a
  induction a with
  | nil => intro r dflt; cases r <;> rfl
  | cons x a ih => intro r dflt; simpa using ih r dflt

/-- `getD` just before the `r` part of `(p :: a) ++ r` is the last
character of `p :: a`. -/
theorem getDConsLast : ∀ (a : List Char) (p : Char) (r : List Char) (dflt : Char),
    ((p :: a) ++ r).getD a.length dflt = a.getLastD p := by
  intro a
  induction a with
  | nil => intro p r dflt; rfl
  | cons x a ih =>
    intro p r dflt
    rw [getLastDCons]
    exact ih x r dflt

/-- `wordAfter` in terms of `headD` (a space is not a word character). -/
theorem wordAfter_eq (b : List Char) : wordAfter b = isWordChar (b.headD ' ') := by
  cases b <;> rfl

/-! ### Claims -/

/-- Claim C1 (status: code_bug).  The spec and `package.json` say the
configured default dialect (`shell-syntax.defaultShell`, one of
bash/zsh/sh, default bash) is used for a saved shell buffer matched by
no zsh-extension, zsh-shebang or sh-shebang rule.  The code never reads
that setting: the fallback branch of `lint` is hard-coded to run
`bash -n` and label diagnostics `"bash"`.  This theorem evaluates the
code on such a buffer: the classifier (which takes no configuration
input at all) picks bash, the invoked command is `bash -n <path>`, and
the produced diagnostic is labelled `"bash"`. -/
theorem claim_C1_fallback_hardcoded_bash :
    lintShell plainShDoc = some Shell.bash ∧
    lintCommand plainShDoc = some ["bash", "-n", "/home/u/plain.sh"] ∧
    lintStep plainShDoc none "" "/home/u/plain.sh: line 1: oops" []
      = [("file:///home/u/plain.sh",
          [{ startLine := 0, startChar := 0, endLine := 0, endChar := 7,
             message := "oops", source := "bash" }])] := by
  decide

/-- Claim C6 (status: confirmed).  A dirty buffer never triggers a
check: the classifier yields no dialect, no command is run, and the
diagnostic collection is left untouched, whatever the buffer's path,
language tag or content. -/
theorem claim_C6_dirty_never_checked (d : TextDocument) (h : d.isDirty = true) :
    lintShell d = none ∧ lintCommand d = none ∧
    ∀ (execErr : Option ExecError) (stdout stderr : String) (c : DiagnosticCollection),
      lintStep d execErr stdout stderr c = c := by
  have hs : isSavedShellDocument d = false := by
    simp [isSavedShellDocument, h]
  have hz : isSavedZshDocument d = false := by
    simp [isSavedZshDocument, hs]
  have hsh : isSavedShebangShDocument d = false := by
    simp [isSavedShebangShDocument, hs]
  have hl : lintShell d = none := by
    simp [lintShell, hz, hsh, hs]
  refine ⟨hl, by simp [lintCommand, hl], ?_⟩
  intro execErr stdout stderr c
  simp [lintStep, hl]

/-- Witness for claim C6 at a concrete dirty buffer. -/
theorem claim_C6_witness :
    dirtyDoc.isDirty = true ∧
    (lintShell dirtyDoc = none ∧ lintCommand dirtyDoc = none ∧
      ∀ (execErr : Option ExecError) (stdout stderr : String) (c : DiagnosticCollection),
        lintStep dirtyDoc execErr stdout stderr c = c) :=
  ⟨by decide, claim_C6_dirty_never_checked dirtyDoc (by decide)⟩

/-- Claim C10 (status: confirmed).  A buffer whose uri scheme is not
`file` is never checked: the selector `{language: "shellscript",
scheme: "file"}` scores zero, so the classifier yields no dialect and
the diagnostic collection is left untouched, even for a non-dirty
buffer in shell language. -/
theorem claim_C10_requires_file_scheme (d : TextDocument) (h : d.scheme ≠ "file") :
    lintShell d = none ∧ lintCommand d = none ∧
    ∀ (execErr : Option ExecError) (stdout stderr : String) (c : DiagnosticCollection),
      lintStep d execErr stdout stderr c = c := by
  have hsch : (d.scheme == "file") = false := by
    simpa using h
  have hs : isSavedShellDocument d = false := by
    simp [isSavedShellDocument, languagesMatch, hsch]
  have hz : isSavedZshDocument d = false := by
    simp [isSavedZshDocument, hs]
  have hsh : isSavedShebangShDocument d = false := by
    simp [isSavedShebangShDocument, hs]
  have hl : lintShell d = none := by
    simp [lintShell, hz, hsh, hs]
  refine ⟨hl, by simp [lintCommand, hl], ?_⟩
  intro execErr stdout stderr c
  simp [lintStep, hl]

/-- Witness for claim C10 at a concrete untitled buffer that is in
shell language and not dirty. -/
theorem claim_C10_witness :
    untitledDoc.scheme ≠ "file" ∧ untitledDoc.languageId = "shellscript" ∧
    untitledDoc.isDirty = false ∧
    (lintShell untitledDoc = none ∧ lintCommand untitledDoc = none ∧
      ∀ (execErr : Option ExecError) (stdout stderr : String) (c : DiagnosticCollection),
        lintStep untitledDoc execErr stdout stderr c = c) :=
  ⟨by decide, by decide, by decide,
    claim_C10_requires_file_scheme untitledDoc (by decide)⟩

/-- Claim C9 (status: confirmed).  For every matched error line the
constructed diagnostic never fails on the reported line number: the
requested line `n - 1` is clamped into the buffer (start line equals
end line and is a valid index), and the diagnostic spans the full width
of its clamped line from column 0. -/
theorem claim_C9_line_clamped (doc : TextDocument) (h : doc.lines ≠ [])
    (src msg : String) (n : Nat) :
    (mkDiagnostic doc src n msg).startLine = (mkDiagnostic doc src n msg).endLine ∧
    (mkDiagnostic doc src n msg).startLine < doc.lines.length ∧
    (mkDiagnostic doc src n msg).startChar = 0 ∧
    (mkDiagnostic doc src n msg).endChar
      = lineLen doc ((mkDiagnostic doc src n msg).startLine) := by
  have hlen : 0 < doc.lines.length := List.length_pos.mpr h
  refine ⟨rfl, ?_, rfl, rfl⟩
  show (min (max ((n : Int) - 1) 0) ((doc.lines.length : Int) - 1)).toNat
    < doc.lines.length
  omega

/-- Witness for claim C9: the reported line 100 exceeds the 5-line
buffer and is clamped. -/
theorem claim_C9_witness :
    bashSampleDoc.lines ≠ [] ∧
    ((mkDiagnostic bashSampleDoc "bash" 100 "m").startLine
        = (mkDiagnostic bashSampleDoc "bash" 100 "m").endLine ∧
      (mkDiagnostic bashSampleDoc "bash" 100 "m").startLine
        < bashSampleDoc.lines.length ∧
      (mkDiagnostic bashSampleDoc "bash" 100 "m").startChar = 0 ∧
      (mkDiagnostic bashSampleDoc "bash" 100 "m").endChar
        = lineLen bashSampleDoc ((mkDiagnostic bashSampleDoc "bash" 100 "m").startLine)) :=
  ⟨by decide, claim_C9_line_clamped bashSampleDoc (by decide) "bash" "m" 100⟩

/-- Claim C4 (status: confirmed).  A launch failure (the `execFile`
callback reports a system error, i.e. an error carrying a string
`errno`) makes `runInWorkspace` reject as a hard failure — it never
resolves as if there were no syntax errors — and the session-level
`lint` handler applies no diagnostic change: the collection is returned
unchanged and nothing propagates (the rejection is swallowed by the
fire-and-forget event registration).  Conversely a non-zero exit with
captured output is not a failure: `runInWorkspace` resolves normally
with the exit code, stdout and stderr. -/
theorem claim_C4_launch_failure_vs_exit_code :
    (∀ (e : ExecError) (stdout stderr : String) (d : TextDocument)
        (c : DiagnosticCollection),
      isSystemError e = true →
        runInWorkspace (some e) stdout stderr = Except.error e ∧
        lintStep d (some e) stdout stderr c = c) ∧
    (∀ (n : Int) (stdout stderr : String), 0 < n →
      runInWorkspace (some ⟨none, some n⟩) stdout stderr
        = Except.ok ⟨n, stdout, stderr⟩) := by
  constructor
  · intro e stdout stderr d c hsys
    have hproc : isProcessError e = false := by
      simp [isProcessError, hsys]
    have hrun : runInWorkspace (some e) stdout stderr = Except.error e := by
      simp [runInWorkspace, hproc]
    refine ⟨hrun, ?_⟩
    unfold lintStep
    cases lintShell d <;> simp [hrun]
  · intro n stdout stderr hn
    have hproc : isProcessError ⟨none, some n⟩ = true := by
      simp [isProcessError, isSystemError]
      exact hn
    simp [runInWorkspace, hproc]

/-- Witness for claim C4: a missing binary (`errno = "ENOENT"`) rejects
and leaves existing diagnostics in place; exit code 2 with output
resolves. -/
theorem claim_C4_witness :
    (isSystemError ⟨some "ENOENT", none⟩ = true ∧
      runInWorkspace (some ⟨some "ENOENT", none⟩) "" ""
        = Except.error ⟨some "ENOENT", none⟩ ∧
      lintStep plainShDoc (some ⟨some "ENOENT", none⟩) "" ""
          [("file:///home/u/plain.sh", [])]
        = [("file:///home/u/plain.sh", [])]) ∧
    ((0 : Int) < 2 ∧
      runInWorkspace (some ⟨none, some 2⟩) "out" "err"
        = Except.ok ⟨2, "out", "err"⟩) := by
  refine ⟨⟨by decide, ?_⟩, ⟨by decide, ?_⟩⟩
  · exact claim_C4_launch_failure_vs_exit_code.1 ⟨some "ENOENT", none⟩ "" ""
      plainShDoc [("file:///home/u/plain.sh", [])] (by decide)
  · exact claim_C4_launch_failure_vs_exit_code.2 2 "out" "err" (by decide)

/-- Claim C5 (status: corrected), counterexample.  The claim says a
check result arriving after the buffer was closed is discarded rather
than recreating an entry.  The code has no such guard: after the close
handler deletes the entry, the still-pending `lint` continuation calls
`diagnostics.set(uri, …)`, which recreates the entry.  Concretely:
close removes the entry for `plainShDoc`, then the late check result
arrives and the collection again holds an entry for that uri. -/
theorem claim_C5_counterexample :
    dcGet (onCloseDoc plainShDoc [("file:///home/u/plain.sh",
        [{ startLine := 0, startChar := 0, endLine := 0, endChar := 7,
           message := "old", source := "bash" }])]) plainShDoc.uri = none ∧
    dcGet (lintStep plainShDoc none "" "/home/u/plain.sh: line 1: boom"
        (onCloseDoc plainShDoc [("file:///home/u/plain.sh",
          [{ startLine := 0, startChar := 0, endLine := 0, endChar := 7,
             message := "old", source := "bash" }])])) plainShDoc.uri
      = some [{ startLine := 0, startChar := 0, endLine := 0, endChar := 7,
                message := "boom", source := "bash" }] := by
  decide

/-- Claim C5 as amended (status: corrected).  The close event removes
the Session entry for the buffer's identity, but a check result
arriving after the close is not discarded: the `lint` continuation
applies it with `set`, recreating the entry with the late result. -/
theorem claim_C5_amended_close_then_late_set (d : TextDocument)
    (c : DiagnosticCollection) (dialect : Shell)
    (h : lintShell d = some dialect) (stdout stderr : String) :
    dcGet (onCloseDoc d c) d.uri = none ∧
    lintStep d none stdout stderr (onCloseDoc d c)
      = dcSet (onCloseDoc d c) d.uri (outputToDiagnostics dialect d stderr) := by
  refine ⟨dcGet_dcDelete c d.uri, ?_⟩
  simp [lintStep, h, runInWorkspace]

/-- Witness for the amended claim C5 at a concrete buffer and
collection. -/
theorem claim_C5_amended_witness :
    lintShell plainShDoc = some Shell.bash ∧
    (dcGet (onCloseDoc plainShDoc [("file:///home/u/plain.sh", [])])
        plainShDoc.uri = none ∧
      lintStep plainShDoc none "" "x: line 2: oops"
          (onCloseDoc plainShDoc [("file:///home/u/plain.sh", [])])
        = dcSet (onCloseDoc plainShDoc [("file:///home/u/plain.sh", [])])
            plainShDoc.uri
            (outputToDiagnostics Shell.bash plainShDoc "x: line 2: oops")) :=
  ⟨by decide,
    claim_C5_amended_close_then_late_set plainShDoc
      [("file:///home/u/plain.sh", [])] Shell.bash (by decide) "" "x: line 2: oops"⟩

/-- Claim C7 (status: confirmed).  Each dialect's canonical single-line
error format yields exactly one diagnostic whose zero-based line index
is the reported 1-based number minus one, whose message is the text
after the line-number field, and whose source label is the dialect
name: bash `"script.sh: line 4: …"` gives line 3 with source `"bash"`,
sh `"sample.sh: 5: …"` gives line 4 with source `"sh"`, and zsh
`"sample.zsh:5: …"` gives line 4 with source `"zsh"`. -/
theorem claim_C7_canonical_lines :
    bashOutputToDiagnostics bashSampleDoc
        ("script.sh: line 4: syntax error near unexpected token "
          ++ aposStr ++ "fi" ++ aposStr)
      = [{ startLine := 3, startChar := 0, endLine := 3, endChar := 8,
           message := "syntax error near unexpected token " ++ aposStr ++ "fi" ++ aposStr,
           source := "bash" }] ∧
    shOutputToDiagnostics shSampleDoc
        "sample.sh: 5: Syntax error: \"fi\" unexpected"
      = [{ startLine := 4, startChar := 0, endLine := 4, endChar := 6,
           message := "Syntax error: \"fi\" unexpected", source := "sh" }] ∧
    zshOutputToDiagnostics zshSampleDoc
        ("sample.zsh:5: parse error near `fi" ++ aposStr)
      = [{ startLine := 4, startChar := 0, endLine := 4, endChar := 6,
           message := "parse error near `fi" ++ aposStr, source := "zsh" }] := by
  decide

/-- Claim C8 (status: confirmed).  For every dialect and every stderr
text, the normalizer splits the text on newline and produces, in input
order, exactly one diagnostic per line matching that dialect's grammar
and none for lines that do not match (that is what `filterMap` over the
split lines says); empty stderr yields an empty diagnostic list. -/
theorem claim_C8_per_line_normalization (doc : TextDocument) (output : String) :
    bashOutputToDiagnostics doc output
      = (splitNl output).filterMap
          (fun l => (bashMatchLine l).map
            (fun m => mkDiagnostic doc "bash" (parseDigits m.2.1) m.2.2)) ∧
    zshOutputToDiagnostics doc output
      = (splitNl output).filterMap
          (fun l => (zshMatchLine l).map
            (fun m => mkDiagnostic doc "zsh" (parseDigits m.2.1) m.2.2)) ∧
    shOutputToDiagnostics doc output
      = (splitNl output).filterMap
          (fun l => (shMatchLine l).map
            (fun m => mkDiagnostic doc "sh" (parseDigits m.2.1) m.2.2)) ∧
    bashOutputToDiagnostics doc "" = [] ∧
    zshOutputToDiagnostics doc "" = [] ∧
    shOutputToDiagnostics doc "" = [] := by
  have key : ∀ (m : String → Option (String × String × String)) (src : String) (t : String),
      (getMatches m t).map (fun m2 => mkDiagnostic doc src (parseDigits m2.2.1) m2.2.2)
        = (splitNl t).filterMap
            (fun l => (m l).map (fun m2 => mkDiagnostic doc src (parseDigits m2.2.1) m2.2.2)) := by
    intro m src t
    rw [getMatches_eq_filterMap, List.map_filterMap]
  have hempty : ∀ (m : String → Option (String × String × String)) (src : String),
      m "" = none →
      (getMatches m "").map (fun m2 => mkDiagnostic doc src (parseDigits m2.2.1) m2.2.2) = [] := by
    intro m src hm
    rw [key m src ""]
    show List.filterMap _ [""] = []
    simp [hm]
  exact ⟨key bashMatchLine "bash" output, key zshMatchLine "zsh" output,
    key shMatchLine "sh" output,
    hempty bashMatchLine "bash" rfl, hempty zshMatchLine "zsh" rfl,
    hempty shMatchLine "sh" rfl⟩

/-- Claim C3 (status: confirmed).  Classification applies its rules in
strict priority order, first match wins: a saved shell buffer whose
path ends in `.zshrc` is classified zsh regardless of its first line's
content, and a saved shell buffer with no zsh-qualifying extension
whose first line is `#!/bin/sh` is classified sh and checked with
`sh -n`, not the fallback default. -/
theorem claim_C3_priority_order (d : TextDocument)
    (hsaved : isSavedShellDocument d = true) :
    (strEndsWith d.fileName ".zshrc" = true →
      lintShell d = some Shell.zsh ∧
      lintCommand d = some ["zsh", "-n", d.fileName]) ∧
    (zshExtensions.all (fun ext => !strEndsWith d.fileName ext) = true →
      firstLine d = "#!/bin/sh" →
      lintShell d = some Shell.sh ∧
      lintCommand d = some ["sh", "-n", d.fileName]) := by
  constructor
  · intro hz
    have hany : zshExtensions.any (fun ext => strEndsWith d.fileName ext) = true :=
      List.any_eq_true.mpr ⟨".zshrc", by simp [zshExtensions], hz⟩
    have hzd : isSavedZshDocument d = true := by
      simp [isSavedZshDocument, hsaved, hany]
    exact ⟨by simp [lintShell, hzd],
      by simp [lintCommand, lintShell, hzd, shellName]⟩
  · intro hall hfl
    have hany : zshExtensions.any (fun ext => strEndsWith d.fileName ext) = false := by
      rw [List.any_eq_false]
      intro x hx
      have hx2 := List.all_eq_true.mp hall x hx
      simpa using hx2
    have hzsb : zshShebangMatch (firstLine d) = false := by
      rw [hfl]; decide
    have hzd : isSavedZshDocument d = false := by
      simp [isSavedZshDocument, hany, hzsb]
    have hshb : shShebangMatch (firstLine d) = true := by
      rw [hfl]; decide
    have hsd : isSavedShebangShDocument d = true := by
      simp [isSavedShebangShDocument, hsaved, hshb]
    exact ⟨by simp [lintShell, hzd, hsd],
      by simp [lintCommand, lintShell, hzd, hsd, shellName]⟩

/-- Witness for claim C3: a `.zshrc` buffer whose first line is a bash
shebang is still classified zsh; a `#!/bin/sh` buffer with a plain path
is classified sh. -/
theorem claim_C3_witness :
    (isSavedShellDocument zshrcDoc = true ∧
      strEndsWith zshrcDoc.fileName ".zshrc" = true ∧
      firstLine zshrcDoc = "#!/bin/bash" ∧
      lintShell zshrcDoc = some Shell.zsh ∧
      lintCommand zshrcDoc = some ["zsh", "-n", "/home/u/.zshrc"]) ∧
    (isSavedShellDocument shSampleDoc = true ∧
      firstLine shSampleDoc = "#!/bin/sh" ∧
      lintShell shSampleDoc = some Shell.sh ∧
      lintCommand shSampleDoc = some ["sh", "-n", "/home/u/sample.sh"]) := by
  refine ⟨⟨by decide, by decide, by decide, ?_, ?_⟩,
    ⟨by decide, by decide, ?_, ?_⟩⟩
  · exact ((claim_C3_priority_order zshrcDoc (by decide)).1 (by decide)).1
  · exact ((claim_C3_priority_order zshrcDoc (by decide)).1 (by decide)).2
  · exact ((claim_C3_priority_order shSampleDoc (by decide)).2 (by decide) (by decide)).1
  · exact ((claim_C3_priority_order shSampleDoc (by decide)).2 (by decide) (by decide)).2

/-- Claim C2 (status: confirmed).  The shebang rules match `sh` and
`zsh` only as whole words of the first line: when every occurrence of
`sh` in the first line has a word character adjacent on some side
(inside a longer word, e.g. `#!/bin/dash`), the sh-shebang rule does
not fire and the buffer is not classified sh; when every occurrence of
`zsh` has word characters adjacent on either side (inside a longer
identifier), the zsh-shebang rule does not fire. -/
theorem claim_C2_shebang_word_boundaries (d : TextDocument)
    (hsh : ∀ i, i < (firstLine d).toList.length →
      ((firstLine d).toList.drop i).take 2 = ['s', 'h'] →
      ((0 < i ∧ wordAt (firstLine d).toList (i - 1) = true) ∨
        wordAt (firstLine d).toList (i + 2) = true))
    (hzsh : ∀ i, i < (firstLine d).toList.length →
      ((firstLine d).toList.drop i).take 3 = ['z', 's', 'h'] →
      ((0 < i ∧ wordAt (firstLine d).toList (i - 1) = true) ∧
        wordAt (firstLine d).toList (i + 3) = true)) :
    shShebangMatch (firstLine d) = false ∧
    zshShebangMatch (firstLine d) = false ∧
    lintShell d ≠ some Shell.sh := by
  have hshF : shShebangMatch (firstLine d) = false := by
    cases hm : shShebangMatch (firstLine d) with
    | false => rfl
    | true =>
      exfalso
      unfold shShebangMatch at hm
      cases hst : stripPre ['#', '!'] (firstLine d).toList with
      | none =>
        rw [hst] at hm
        exact Bool.noConfusion hm
      | some rest =>
        rw [hst] at hm
        obtain ⟨a, b, heq, hlast, haft⟩ := shSearch_sound rest '!' hm
        have hL : (firstLine d).toList = '#' :: '!' :: (a ++ 's' :: 'h' :: b) := by
          rw [stripPre_eq_some _ _ _ hst, heq]; rfl
        have hi : a.length + 2 < (firstLine d).toList.length := by
          rw [hL]
          simp only [List.length_cons, List.length_append]
          omega
        have htake : ((firstLine d).toList.drop (a.length + 2)).take 2 = ['s', 'h'] := by
          have hsplit : (firstLine d).toList = ('#' :: '!' :: a) ++ ('s' :: 'h' :: b) := by
            rw [hL]; simp
          rw [hsplit]
          have hlen : ('#' :: '!' :: a).length = a.length + 2 := by
            simp only [List.length_cons]
          rw [← hlen, dropAppLen]
          rfl
        rcases hsh (a.length + 2) hi htake with ⟨hpos, hbef⟩ | haftw
        · have hbef' : wordAt (firstLine d).toList (a.length + 1) = true := hbef
          have hgd : (firstLine d).toList.getD (a.length + 1) ' ' = a.getLastD '!' := by
            rw [hL]
            show ('#' :: (('!' :: a) ++ ('s' :: 'h' :: b))).getD (a.length + 1) ' '
              = a.getLastD '!'
            rw [List.getD_cons_succ]
            exact getDConsLast a '!' ('s' :: 'h' :: b) ' '
          rw [wordAt, hgd] at hbef'
          exact Bool.noConfusion (hbef'.symm.trans hlast)
        · have haftw' : wordAt (firstLine d).toList (a.length + 4) = true := haftw
          have hgd : (firstLine d).toList.getD (a.length + 4) ' ' = b.headD ' ' := by
            have hsplit2 : (firstLine d).toList = (('#' :: '!' :: a) ++ ['s', 'h']) ++ b := by
              rw [hL]; simp
            rw [hsplit2]
            have hlen : (('#' :: '!' :: a) ++ ['s', 'h']).length = a.length + 4 := by
              simp only [List.length_append, List.length_cons, List.length_nil]
            rw [← hlen]
            exact getDAppLen _ b ' '
          rw [wordAt, hgd] at haftw'
          rw [wordAfter_eq] at haft
          exact Bool.noConfusion (haftw'.symm.trans haft)
  have hzshF : zshShebangMatch (firstLine d) = false := by
    cases hm : zshShebangMatch (firstLine d) with
    | false => rfl
    | true =>
      exfalso
      unfold zshShebangMatch at hm
      cases hst : stripPre ['#', '!'] (firstLine d).toList with
      | none =>
        rw [hst] at hm
        exact Bool.noConfusion hm
      | some rest =>
        rw [hst] at hm
        obtain ⟨a, b, heq, hlast⟩ := zshSearch_sound rest '!' hm
        have hL : (firstLine d).toList = '#' :: '!' :: (a ++ 'z' :: 's' :: 'h' :: b) := by
          rw [stripPre_eq_some _ _ _ hst, heq]; rfl
        have hi : a.length + 2 < (firstLine d).toList.length := by
          rw [hL]
          simp only [List.length_cons, List.length_append]
          omega
        have htake : ((firstLine d).toList.drop (a.length + 2)).take 3 = ['z', 's', 'h'] := by
          have hsplit : (firstLine d).toList = ('#' :: '!' :: a) ++ ('z' :: 's' :: 'h' :: b) := by
            rw [hL]; simp
          rw [hsplit]
          have hlen : ('#' :: '!' :: a).length = a.length + 2 := by
            simp only [List.length_cons]
          rw [← hlen, dropAppLen]
          rfl
        obtain ⟨⟨hpos, hbef⟩, _⟩ := hzsh (a.length + 2) hi htake
        have hbef' : wordAt (firstLine d).toList (a.length + 1) = true := hbef
        have hgd : (firstLine d).toList.getD (a.length + 1) ' ' = a.getLastD '!' := by
          rw [hL]
          show ('#' :: (('!' :: a) ++ ('z' :: 's' :: 'h' :: b))).getD (a.length + 1) ' '
            = a.getLastD '!'
          rw [List.getD_cons_succ]
          exact getDConsLast a '!' ('z' :: 's' :: 'h' :: b) ' '
        rw [wordAt, hgd] at hbef'
        exact Bool.noConfusion (hbef'.symm.trans hlast)
  have hsbs : isSavedShebangShDocument d = false := by
    unfold isSavedShebangShDocument
    rw [hshF]
    simp
  refine ⟨hshF, hzshF, ?_⟩
  intro hcon
  cases h1 : isSavedZshDocument d <;> cases h2 : isSavedShellDocument d <;>
    simp [lintShell, h1, h2, hsbs] at hcon

/-- Witness for claim C2 at the buffer whose first line is
`#!/bin/dash`: every occurrence of `sh` is inside a longer word, there
is no occurrence of `zsh`, and the buffer is not classified sh. -/
theorem claim_C2_witness :
    (∀ i, i < (firstLine dashDoc).toList.length →
      ((firstLine dashDoc).toList.drop i).take 2 = ['s', 'h'] →
      ((0 < i ∧ wordAt (firstLine dashDoc).toList (i - 1) = true) ∨
        wordAt (firstLine dashDoc).toList (i + 2) = true)) ∧
    (∀ i, i < (firstLine dashDoc).toList.length →
      ((firstLine dashDoc).toList.drop i).take 3 = ['z', 's', 'h'] →
      ((0 < i ∧ wordAt (firstLine dashDoc).toList (i - 1) = true) ∧
        wordAt (firstLine dashDoc).toList (i + 3) = true)) ∧
    (shShebangMatch (firstLine dashDoc) = false ∧
      zshShebangMatch (firstLine dashDoc) = false ∧
      lintShell dashDoc ≠ some Shell.sh) :=
  ⟨by decide, by decide,
    claim_C2_shebang_word_boundaries dashDoc (by decide) (by decide)⟩

end ShellSyntax
